import Mathlib

/-!
# Verification of the NetBox rack elevation and unit-allocation engine

Shallow embedding of `netbox/dcim/models/racks.py` (classes `RackType`, `Rack`,
`RackReservation`) and the helper `drange` from `netbox/utilities/data.py`.

Unit positions are represented as exact rationals (`ℚ`), matching the source's
use of Python `Decimal` arithmetic on multiples of 0.5, which is exact.
-/

/-- Embedding of `utilities.data.drange(start, end, step)` one loop iteration at
a time, with fuel.  The Python generator loops `while start < end` when
`start < end` initially, else `while start > end`, adding `step` each time.
The fuel supplied by `drange` below equals the exact number of iterations the
Python loop performs on every terminating parameterization (step and remaining
distance of matching sign); on parameterizations where the Python loop would
never terminate (e.g. positive step with `start > end`) the guard here fails at
once and the result is `[]`. -/
def drangeAux : ℕ → ℚ → ℚ → ℚ → List ℚ
  | 0, _, _, _ => []
  | fuel + 1, start, stop, step =>
    if (0 < step ∧ start < stop) ∨ (step < 0 ∧ stop < start) then
      start :: drangeAux fuel (start + step) stop step
    else []

/-- Embedding of `utilities.data.drange`: decimal-compatible `range`. -/
def drange (start stop step : ℚ) : List ℚ :=
  drangeAux (⌈(stop - start) / step⌉.toNat) start stop step

/-- The numbering configuration shared by `RackType` and `Rack`
(`RackBase.u_height`, `RackBase.starting_unit`, `RackBase.desc_units`). -/
structure RackConfig where
  u_height : ℕ
  starting_unit : ℕ
  desc_units : Bool
deriving Repr, DecidableEq

/-- Embedding of `Rack.units` (identical in `RackType.units`): the list of unit
numbers, top to bottom. -/
def RackConfig.units (r : RackConfig) : List ℚ :=
  if r.desc_units then
    drange r.starting_unit (r.u_height + r.starting_unit) (1/2)
  else
    drange (r.u_height + 1/2 + r.starting_unit - 1) (1/2 + r.starting_unit - 1) (-(1/2))

-- Closed form for `drange`: an arithmetic progression of the fuel's length.

theorem drangeAux_eq (step : ℚ) (hstep : step ≠ 0) :
    ∀ (n : ℕ) (start stop : ℚ), n = (⌈(stop - start) / step⌉).toNat →
      drangeAux n start stop step = (List.range n).map (fun i : ℕ => start + (i : ℚ) * step) := by
  intro n
  induction n with
  | zero => intro start stop _; rfl
  | succ m ih =>
    intro start stop hn
    have hceil : 0 < ⌈(stop - start) / step⌉ := by omega
    have hq : 0 < (stop - start) / step := Int.ceil_pos.mp hceil
    have hguard : (0 < step ∧ start < stop) ∨ (step < 0 ∧ stop < start) := by
      rcases lt_or_gt_of_ne hstep with hneg | hpos
      · right
        refine ⟨hneg, ?_⟩
        rcases div_pos_iff.mp hq with ⟨ha, hb⟩ | ⟨ha, hb⟩
        · exact absurd hb (not_lt.mpr hneg.le)
        · linarith
      · left
        refine ⟨hpos, ?_⟩
        rcases div_pos_iff.mp hq with ⟨ha, hb⟩ | ⟨ha, hb⟩
        · linarith
        · exact absurd hb (not_lt.mpr hpos.le)
    have hrec : m = (⌈(stop - (start + step)) / step⌉).toNat := by
      have harith : (stop - (start + step)) / step = (stop - start) / step - 1 := by
        field_simp
        ring
      rw [harith, Int.ceil_sub_one]
      omega
    have hunfold : drangeAux (m + 1) start stop step =
        start :: drangeAux m (start + step) stop step := by
      rw [drangeAux]
      rw [if_pos hguard]
    rw [hunfold, ih (start + step) stop hrec, List.range_succ_eq_map]
    simp only [List.map_cons, List.map_map]
    congr 1
    · push_cast
      ring
    · apply List.map_congr_left
      intro i _
      simp only [Function.comp_apply]
      push_cast
      ring

theorem drange_eq (start stop step : ℚ) (hstep : step ≠ 0) :
    drange start stop step =
      (List.range ((⌈(stop - start) / step⌉).toNat)).map (fun i : ℕ => start + (i : ℚ) * step) :=
  drangeAux_eq step hstep _ start stop rfl

/-- Count of a `drange` whose span is an exact whole number of steps. -/
theorem drange_eq_of_count (start stop step : ℚ) (n : ℕ) (hstep : step ≠ 0)
    (hspan : stop - start = n * step) :
    drange start stop step = (List.range n).map (fun i : ℕ => start + (i : ℚ) * step) := by
  rw [drange_eq start stop step hstep, hspan]
  rw [mul_div_assoc, div_self hstep, mul_one, Int.ceil_natCast, Int.toNat_natCast]

-- Closed form for `RackConfig.units`.

theorem units_desc (h s : ℕ) :
    (RackConfig.units ⟨h, s, true⟩) = (List.range (2 * h)).map (fun i : ℕ => (s : ℚ) + (i : ℚ) * (1/2)) := by
  unfold RackConfig.units
  simp only [if_pos]
  exact drange_eq_of_count _ _ _ (2 * h) (by norm_num) (by push_cast; ring)

theorem units_asc (h s : ℕ) :
    (RackConfig.units ⟨h, s, false⟩) =
      (List.range (2 * h)).map (fun i : ℕ => (h : ℚ) + s - 1/2 - (i : ℚ) * (1/2)) := by
  unfold RackConfig.units
  simp only [Bool.false_eq_true, if_neg, ite_false]
  rw [drange_eq_of_count _ _ _ (2 * h) (by norm_num) (by push_cast; ring)]
  apply List.map_congr_left
  intro i _
  ring

-- ## Data entities

/-- A rack face (`DeviceFaceChoices.FACE_FRONT` / `FACE_REAR`). -/
inductive Face
  | front
  | rear
deriving Repr, DecidableEq

/-- Modelled from the spec: `MountedDevice` is an external entity (the `Device`
model is not part of the rack subsystem's sources); the spec gives it
`{ id, position, uHeight, face, isFullDepth, excludeFromUtilization }` with
`position` a nullable half-integer (null means not U-mounted), `uHeight` a
positive number of units, and a stable identity. -/
structure MountedDevice where
  id : ℕ
  position : Option ℚ
  u_height : ℚ
  face : Option Face
  is_full_depth : Bool
  exclude_from_utilization : Bool
deriving Repr, DecidableEq

/-- The persisted fields of a `RackReservation` that the rack engine reads:
its primary key and its array of (whole) reserved units. -/
structure RackReservationRec where
  pk : ℕ
  units : List ℕ
deriving Repr, DecidableEq

-- ## `Rack.get_available_units`

/-- The device queryset of `Rack.get_available_units`:
`self.devices.filter(position__gte=1)`, optionally
`.exclude(device_type__exclude_from_utilization=True)`, optionally
`.exclude(pk__in=exclude)` (SQL `NULL >= 1` is false, so unmounted devices are
dropped by the first filter). -/
def consideredDevices (devices : List MountedDevice) (exclude : Option (List ℕ))
    (ignore_excluded_devices : Bool) : List MountedDevice :=
  let devs := devices.filter (fun d =>
    match d.position with
    | some p => decide (1 ≤ p)
    | none => false)
  let devs := if ignore_excluded_devices then
      devs.filter (fun d => !d.exclude_from_utilization)
    else devs
  match exclude with
  | some pks => devs.filter (fun d => !(pks.contains d.id))
  | none => devs

/-- First pass of `Rack.get_available_units`: the unit skeleton
`units = list(self.units)` minus every half-unit step consumed by an installed
device matching the queried face (or full-depth).  Python's
`units.remove(u)` under `try: ... except ValueError: pass` removes the first
occurrence of `u` when present and leaves the list unchanged otherwise, which
is exactly `List.erase`. -/
def free_units (rack : RackConfig) (devices : List MountedDevice)
    (rack_face : Option Face) (exclude : Option (List ℕ))
    (ignore_excluded_devices : Bool) : List ℚ :=
  (consideredDevices devices exclude ignore_excluded_devices).foldl
    (fun units d =>
      if rack_face = none ∨ d.face = rack_face ∨ d.is_full_depth then
        (drange (d.position.getD 0) (d.position.getD 0 + d.u_height) (1/2)).foldl
          List.erase units
      else units)
    rack.units

/-- Embedding of `Rack.get_available_units`: positions whose contiguous
`2 * u_height` half-unit block lies inside the free set
(`set(drange(u, u + u_height, 0.5)).issubset(units)`), in reverse generation
order. -/
def get_available_units (rack : RackConfig) (devices : List MountedDevice)
    (u_height : ℚ) (rack_face : Option Face) (exclude : Option (List ℕ))
    (ignore_excluded_devices : Bool) : List ℚ :=
  let units := free_units rack devices rack_face exclude ignore_excluded_devices
  (units.filter (fun u =>
    (drange u (u + u_height) (1/2)).all (fun x => units.contains x))).reverse

-- ## `Rack.get_reserved_units`

/-- Python-dict insertion: replace the value in place when the key exists,
append otherwise. -/
def dictInsert (m : List (ℚ × RackReservationRec)) (k : ℚ) (v : RackReservationRec) :
    List (ℚ × RackReservationRec) :=
  if m.any (fun kv => kv.1 == k) then
    m.map (fun kv => if kv.1 == k then (k, v) else kv)
  else m ++ [(k, v)]

/-- Embedding of `Rack.get_reserved_units`: the insertion-ordered mapping of
every reserved unit to its reservation (last write wins). -/
def get_reserved_units (reservations : List RackReservationRec) :
    List (ℚ × RackReservationRec) :=
  reservations.foldl
    (fun m resv => resv.units.foldl (fun m u => dictInsert m (u : ℚ) resv) m)
    []

-- ## `Rack.get_utilization`

/-- Inner loop of `Rack.get_utilization` for one reserved unit `ru`:
`for u in drange(ru, ru + 1, 0.5): if u in available_units:
available_units.remove(u)`. -/
def reserved_removal (available_units : List ℚ) (ru : ℚ) : List ℚ :=
  (drange ru (ru + 1) (1/2)).foldl
    (fun acc u => if u ∈ acc then acc.erase u else acc)
    available_units

/-- The available-unit list computed inside `Rack.get_utilization`:
`get_available_units(u_height=0.5, ignore_excluded_devices=True)` with every
reserved unit's two half-steps removed. -/
def utilization_available (rack : RackConfig) (devices : List MountedDevice)
    (reservations : List RackReservationRec) : List ℚ :=
  (get_reserved_units reservations).foldl
    (fun avail kv => reserved_removal avail kv.1)
    (get_available_units rack devices (1/2) none none true)

/-- Embedding of `Rack.get_utilization`: percentage of units that are occupied
or reserved.  Python's float arithmetic is modelled exactly over `ℚ`; at the
boundary values the claims are about (0, 25, 100) float evaluation is exact. -/
def get_utilization (rack : RackConfig) (devices : List MountedDevice)
    (reservations : List RackReservationRec) : ℚ :=
  let total_units : ℤ := rack.units.length
  let available_units := utilization_available rack devices reservations
  let occupied_unit_count : ℤ := total_units - available_units.length
  (occupied_unit_count : ℚ) / (total_units : ℚ) * 100

-- ## `RackReservation.clean`

/-- The two validation errors `RackReservation.clean` can raise, with the unit
lists they report. -/
inductive ReservationError
  | InvalidUnits (units : List ℕ)
  | ConflictingReservation (units : List ℕ)
deriving Repr, DecidableEq

/-- Embedding of `RackReservation.clean`: validate a reservation of `units`
(primary key `pk`) against its rack and the rack's other reservations
(`self.rack.reservations.exclude(pk=self.pk)`).  `if self.units:` is Python
truthiness, i.e. the checks are skipped for an empty unit list. -/
def RackReservation.clean (rack : RackConfig) (reservations : List RackReservationRec)
    (pk : ℕ) (units : List ℕ) : Except ReservationError Unit :=
  if units = [] then .ok ()
  else
    let invalid_units := units.filter (fun u : ℕ => !(rack.units.contains (u : ℚ)))
    if invalid_units ≠ [] then .error (.InvalidUnits invalid_units)
    else
      let reserved_units := (reservations.filter (fun resv => resv.pk != pk)).foldl
        (fun acc resv => acc ++ resv.units) []
      let conflicting_units := units.filter (fun u => reserved_units.contains u)
      if conflicting_units ≠ [] then .error (.ConflictingReservation conflicting_units)
      else .ok ()

-- ## `Rack.clean` (mounted-device validation) and the save boundary

/-- The mounted-device validation errors of `Rack.clean`, carrying the value
interpolated into the message. -/
inductive RackCleanError
  | HeightTooSmall (min_height : ℚ)
  | StartingUnitTooLarge (position : ℚ)
deriving Repr, DecidableEq

/-- Stable insertion of a device into a position-sorted list (a device is
placed after every device of smaller-or-equal position). -/
def insertByPosition (d : MountedDevice) : List MountedDevice → List MountedDevice
  | [] => [d]
  | e :: rest =>
    if e.position.getD 0 ≤ d.position.getD 0 then e :: insertByPosition d rest
    else d :: e :: rest

/-- Model of the ORM's `.order_by('position')`: a stable sort by position. -/
def orderByPosition : List MountedDevice → List MountedDevice
  | [] => []
  | d :: rest => insertByPosition d (orderByPosition rest)

/-- Embedding of the mounted-device portion of `Rack.clean`: skipped while the
rack is being created (`self._state.adding`); otherwise the devices of the rack
with a non-null position are ordered by position, the last (topmost) one must
fit under `u_height` and the first (bottommost) one must sit at or above
`starting_unit`. -/
def Rack.clean_mounted (cfg : RackConfig) (adding : Bool)
    (devices : List MountedDevice) : Except RackCleanError Unit :=
  if adding then .ok ()
  else
    let mounted_devices := orderByPosition (devices.filter (fun d => d.position.isSome))
    let top_check : Except RackCleanError Unit :=
      match mounted_devices.getLast? with
      | some top_device =>
        let min_height := top_device.position.getD 0 + top_device.u_height - cfg.starting_unit
        if (cfg.u_height : ℚ) < min_height then .error (.HeightTooSmall min_height)
        else .ok ()
      | none => .ok ()
    match top_check with
    | .error e => .error e
    | .ok _ =>
      match mounted_devices.head? with
      | some last_device =>
        if (cfg.starting_unit : ℚ) > last_device.position.getD 0 then
          .error (.StartingUnitTooLarge (last_device.position.getD 0))
        else .ok ()
      | none => .ok ()

/-- Modelled from the spec: the framework's save path (`full_clean` before
`save`, outside these sources) — "all validation errors are raised
synchronously at the save/validate boundary, before any persistence occurs
(fail closed, no partial writes)".  A failed validation leaves the stored
configuration untouched. -/
def Rack.validated_save (stored proposed : RackConfig)
    (devices : List MountedDevice) : RackConfig :=
  match Rack.clean_mounted proposed false devices with
  | .error _ => stored
  | .ok _ => proposed

-- ## `RackType` → `Rack` attribute propagation

/-- The physical attributes shared by `RackType` and `Rack`: exactly the
fields of `Rack.RACKTYPE_FIELDS` (`form_factor`, `width`, `u_height`,
`starting_unit`, `desc_units`, `outer_width`, `outer_depth`, `outer_unit`,
`mounting_depth`, `weight`, `weight_unit`, `max_weight`). -/
structure RackPhysicalAttrs where
  form_factor : String
  width : ℕ
  u_height : ℕ
  starting_unit : ℕ
  desc_units : Bool
  outer_width : Option ℕ
  outer_depth : Option ℕ
  outer_unit : String
  mounting_depth : Option ℕ
  weight : Option ℚ
  weight_unit : String
  max_weight : Option ℕ
deriving Repr, DecidableEq

/-- Modelled from the spec: `utilities.conversion.to_grams` is not among these
sources; the stored value only normalizes the max weight for ordering and no
claim depends on it, so any fixed conversion to grams stands in. -/
def to_grams (weight : ℕ) (unit : String) : ℕ :=
  if unit = "kg" then weight * 1000 else weight

/-- A persisted `RackType` row: its physical attributes plus the derived
`_abs_max_weight` column. -/
structure RackTypeRec where
  attrs : RackPhysicalAttrs
  abs_max_weight : Option ℕ
deriving Repr, DecidableEq

/-- A persisted `Rack` row: physical attributes, the optional `rack_type`
reference, and the derived `_abs_max_weight` column. -/
structure RackRec where
  attrs : RackPhysicalAttrs
  rack_type : Option RackTypeRec
  abs_max_weight : Option ℕ
deriving Repr, DecidableEq

/-- `if self.max_weight and self.weight_unit:` — truthiness of both the
max weight (non-null and non-zero) and the unit (non-empty string). -/
def absMaxWeight (attrs : RackPhysicalAttrs) : Option ℕ :=
  match attrs.max_weight with
  | some w => if w ≠ 0 ∧ attrs.weight_unit ≠ "" then some (to_grams w attrs.weight_unit) else none
  | none => none

/-- `# Clear unit if outer width & depth are not set` (same code in
`RackType.save` and `Rack.save`). -/
def clearOuterUnit (attrs : RackPhysicalAttrs) : RackPhysicalAttrs :=
  if attrs.outer_width = none ∧ attrs.outer_depth = none then
    { attrs with outer_unit := "" }
  else attrs

/-- Embedding of `Rack.copy_racktype_attrs`: copy every `RACKTYPE_FIELDS`
attribute from the assigned `RackType`, if any. -/
def Rack.copy_racktype_attrs (r : RackRec) : RackRec :=
  match r.rack_type with
  | some rt => { r with attrs := rt.attrs }
  | none => r

/-- Embedding of `Rack.save` (the parts that touch persisted rack state):
copy the rack-type attributes, normalize `_abs_max_weight`, clear the outer
unit when both outer dimensions are unset. -/
def Rack.save (r : RackRec) : RackRec :=
  let r := Rack.copy_racktype_attrs r
  let r := { r with abs_max_weight := absMaxWeight r.attrs }
  { r with attrs := clearOuterUnit r.attrs }

/-- Embedding of `RackType.save`: normalize the rack type's own row, then
update every `Rack` referencing it (`for rack in self.racks.all():
rack.copy_racktype_attrs(); rack.save()` — the snapshot call only records
change-log state).  The racks referencing this type are passed in explicitly;
their `rack_type` reference resolves to the freshly saved row. -/
def RackType.save (rt : RackTypeRec) (racks : List RackRec) :
    RackTypeRec × List RackRec :=
  let rt := { rt with abs_max_weight := absMaxWeight rt.attrs }
  let rt := { rt with attrs := clearOuterUnit rt.attrs }
  (rt, racks.map (fun r =>
    Rack.save (Rack.copy_racktype_attrs { r with rack_type := some rt })))

/-- The numbering configuration a rack row presents to the unit-space model. -/
def RackRec.config (r : RackRec) : RackConfig :=
  ⟨r.attrs.u_height, r.attrs.starting_unit, r.attrs.desc_units⟩

-- ## `Rack.get_rack_units`

/-- The unit label: `f'U{u}'.split('.')[0] if not u % 1 else f'U{u}'` — whole
units drop their fractional part.  Decimal string formatting is modelled as the
integer part for whole values and `<floor>.5` for half values (all unit
positions are multiples of 0.5). -/
def unit_name (u : ℚ) : String :=
  if u.den = 1 then "U" ++ toString u.num
  else "U" ++ toString ⌊u⌋ ++ ".5"

/-- One entry of the elevation dictionary built by `Rack.get_rack_units`
(`{'id': u, 'name': ..., 'face': face, 'device': None, 'occupied': False}`,
plus the `height` key the non-expanded branch adds).  The `device` value is the
device's stable identity. -/
structure UnitEntry where
  id : ℚ
  name : String
  face : Face
  device : Option ℕ
  occupied : Bool
  height : Option ℚ
deriving Repr, DecidableEq

/-- `elevation[u][...] = ...`: update the entry keyed `u`, or fail like
Python's `KeyError` when `u` is not a key (entry ids are pairwise distinct, as
they come from `Rack.units`). -/
def updateEntryAt (elevation : List UnitEntry) (u : ℚ) (f : UnitEntry → UnitEntry) :
    Except String (List UnitEntry) :=
  if elevation.any (fun e => e.id == u) then
    .ok (elevation.map (fun e => if e.id == u then f e else e))
  else .error "KeyError"

/-- `user is None or device.pk in permitted_device_ids`: whether the viewer
may see the device (no viewer ⇒ every device is attributed). -/
def devicePermitted (user : Option (ℕ → Bool)) (d : MountedDevice) : Bool :=
  match user with
  | none => true
  | some canView => canView d.id

/-- Embedding of `Rack.get_rack_units`.  `user` is the permission capability
(`None` ⇒ every device attributed; otherwise a device is attributed only when
viewable, while `occupied` is set regardless).  `exclude` is the single device
pk excluded from the query (`.exclude(pk=exclude)`; `None` excludes nothing).
Raising `KeyError` (a device whose span leaves the unit dictionary) is the
`.error` case. -/
def get_rack_units (rack : RackConfig) (adding : Bool) (devices : List MountedDevice)
    (user : Option (ℕ → Bool)) (face : Face) (exclude : Option ℕ)
    (expand_devices : Bool) : Except String (List UnitEntry) :=
  let elevation : List UnitEntry := rack.units.map (fun u =>
    { id := u, name := unit_name u, face := face, device := none,
      occupied := false, height := none })
  if adding then .ok elevation
  else
    let devs := devices.filter (fun d =>
      !(some d.id == exclude) &&
      (match d.position with
       | some p => decide (0 < p)
       | none => false) &&
      decide (0 < d.u_height) &&
      (d.face == some face || d.is_full_depth))
    devs.foldlM
      (fun elev d =>
        if expand_devices then
          (drange (d.position.getD 0) (d.position.getD 0 + d.u_height) (1/2)).foldlM
            (fun elev u =>
              updateEntryAt elev u (fun e =>
                { e with
                    device := if devicePermitted user d then some d.id else e.device,
                    occupied := true }))
            elev
        else
          updateEntryAt elev (d.position.getD 0) (fun e =>
            { e with
                device := if devicePermitted user d then some d.id else e.device,
                occupied := true, height := some d.u_height }))
      elevation

-- ## Helper lemmas about the unit sequence

theorem units_true_eq_reverse (h s : ℕ) :
    RackConfig.units ⟨h, s, true⟩ = (RackConfig.units ⟨h, s, false⟩).reverse := by
  rw [units_desc, units_asc]
  apply List.ext_getElem
  · simp
  · intro i h1 h2
    rw [List.getElem_reverse]
    simp only [List.getElem_map, List.getElem_range, List.length_map, List.length_range]
    simp only [List.length_map, List.length_range] at h1
    have hcast : ((2 * h - 1 - i : ℕ) : ℚ) = 2 * (h : ℚ) - 1 - i := by
      have h3 : i ≤ 2 * h - 1 := by omega
      have h4 : 1 ≤ 2 * h := by omega
      push_cast [Nat.cast_sub h3, Nat.cast_sub h4]
      ring
    rw [hcast]
    ring

theorem units_desc_nodup (h s : ℕ) : (RackConfig.units ⟨h, s, true⟩).Nodup := by
  rw [units_desc]
  refine List.Nodup.map ?_ (List.nodup_range _)
  intro a b hab
  have : (a : ℚ) = b := by
    field_simp at hab
    exact_mod_cast hab
  exact_mod_cast this

theorem units_nodup (r : RackConfig) : r.units.Nodup := by
  obtain ⟨h, s, desc⟩ := r
  cases desc
  · have := units_desc_nodup h s
    rw [units_true_eq_reverse, List.nodup_reverse] at this
    exact this
  · exact units_desc_nodup h s

-- ## C2

/-- C2: for every valid configuration (height ≥ 1, starting unit ≥ 1, either
numbering direction), `units` has exactly `2 * height` entries, each a multiple
of 0.5, each in the half-open interval `[starting_unit, starting_unit +
height)`. -/
theorem claim_C2_units_shape (h s : ℕ) (desc : Bool) (hh : 1 ≤ h) (hs : 1 ≤ s) :
    (RackConfig.units ⟨h, s, desc⟩).length = 2 * h ∧
      ∀ u ∈ RackConfig.units ⟨h, s, desc⟩,
        (s : ℚ) ≤ u ∧ u < (s : ℚ) + h ∧ ∃ k : ℤ, u = (k : ℚ) / 2 := by
  cases desc
  · rw [units_asc]
    refine ⟨by simp, ?_⟩
    intro u hu
    simp only [List.mem_map, List.mem_range] at hu
    obtain ⟨i, hi, rfl⟩ := hu
    have hi1 : (i : ℚ) + 1 ≤ 2 * h := by exact_mod_cast hi
    have hi0 : (0 : ℚ) ≤ i := by positivity
    refine ⟨by linarith, by linarith, ⟨2 * (h : ℤ) + 2 * s - 1 - i, ?_⟩⟩
    push_cast
    ring
  · rw [units_desc]
    refine ⟨by simp, ?_⟩
    intro u hu
    simp only [List.mem_map, List.mem_range] at hu
    obtain ⟨i, hi, rfl⟩ := hu
    have hi1 : (i : ℚ) + 1 ≤ 2 * h := by exact_mod_cast hi
    have hi0 : (0 : ℚ) ≤ i := by positivity
    refine ⟨by linarith, by linarith, ⟨2 * (s : ℤ) + i, ?_⟩⟩
    push_cast
    ring

/-- Witness for C2 at `height = 2`, `starting_unit = 1`, ascending. -/
theorem claim_C2_units_shape_witness :
    (RackConfig.units ⟨2, 1, false⟩).length = 2 * 2 ∧
      ∀ u ∈ RackConfig.units ⟨2, 1, false⟩,
        ((1 : ℕ) : ℚ) ≤ u ∧ u < ((1 : ℕ) : ℚ) + 2 ∧ ∃ k : ℤ, u = (k : ℚ) / 2 :=
  claim_C2_units_shape 2 1 false (by norm_num) (by norm_num)

-- ## C9

/-- C9: for every height ≥ 1 and starting unit ≥ 1, descending numbering
produces exactly the reverse of ascending numbering. -/
theorem claim_C9_desc_reverses_asc (h s : ℕ) (hh : 1 ≤ h) (hs : 1 ≤ s) :
    RackConfig.units ⟨h, s, true⟩ = (RackConfig.units ⟨h, s, false⟩).reverse :=
  units_true_eq_reverse h s

/-- Witness for C9 at `height = 2`, `starting_unit = 1`. -/
theorem claim_C9_desc_reverses_asc_witness :
    RackConfig.units ⟨2, 1, true⟩ = (RackConfig.units ⟨2, 1, false⟩).reverse :=
  claim_C9_desc_reverses_asc 2 1 (by norm_num) (by norm_num)

-- ## Concrete drange evaluations

theorem drange_step_one (a : ℚ) : drange a (a + 1/2) (1/2) = [a] := by
  rw [drange_eq_of_count a (a + 1/2) (1/2) 1 (by norm_num) (by norm_num)]
  norm_num [List.range_succ]

theorem drange_step_two (a : ℚ) : drange a (a + 1) (1/2) = [a, a + 1/2] := by
  rw [drange_eq_of_count a (a + 1) (1/2) 2 (by norm_num) (by norm_num)]
  norm_num [List.range_succ]

theorem drange_step_four (a : ℚ) : drange a (a + 2) (1/2) = [a, a + 1/2, a + 1, a + 3/2] := by
  rw [drange_eq_of_count a (a + 2) (1/2) 4 (by norm_num) (by norm_num)]
  norm_num [List.range_succ]

theorem units_4_1_asc :
    RackConfig.units ⟨4, 1, false⟩ = [9/2, 4, 7/2, 3, 5/2, 2, 3/2, 1] := by
  rw [units_asc]
  norm_num [List.range_succ]

-- ## C1: contiguity of available units

/-- Generic direction of the `get_available_units` second pass: every returned
position's whole half-step block lies inside the post-removal free set. -/
theorem available_block_subset_free (rack : RackConfig) (devices : List MountedDevice)
    (u_height : ℚ) (rack_face : Option Face) (exclude : Option (List ℕ)) (ig : Bool)
    (u : ℚ) (hu : u ∈ get_available_units rack devices u_height rack_face exclude ig) :
    ∀ x ∈ drange u (u + u_height) (1/2),
      x ∈ free_units rack devices rack_face exclude ig := by
  unfold get_available_units at hu
  rw [List.mem_reverse, List.mem_filter] at hu
  obtain ⟨hmem, hall⟩ := hu
  intro x hx
  rw [List.all_eq_true] at hall
  have := hall x hx
  simpa using this

/-- C1: a position returned by `get_available_units` qualifies only if the
whole contiguous block of `2 * u_height` half-unit steps starting there lies
inside the free set left after removing occupied units; concretely, a 4U
ascending rack with a 1U device at position 2 yields exactly `[3]` for
`u_height = 2`, and never position 2. -/
theorem claim_C1_available_contiguous :
    (∀ (rack : RackConfig) (devices : List MountedDevice) (u_height : ℚ)
        (rack_face : Option Face) (exclude : Option (List ℕ)) (ig : Bool) (u : ℚ),
        u ∈ get_available_units rack devices u_height rack_face exclude ig →
        ∀ x ∈ drange u (u + u_height) (1/2),
          x ∈ free_units rack devices rack_face exclude ig) ∧
      get_available_units ⟨4, 1, false⟩ [⟨1, some 2, 1, some Face.front, false, false⟩]
        2 none none false = [3] ∧
      (2 : ℚ) ∉ get_available_units ⟨4, 1, false⟩
        [⟨1, some 2, 1, some Face.front, false, false⟩] 2 none none false := by
  have hconc : get_available_units ⟨4, 1, false⟩
      [⟨1, some 2, 1, some Face.front, false, false⟩] 2 none none false = [3] := by
    have hd1 := drange_step_two 2
    norm_num at hd1
    have e1 := drange_step_four (9/2)
    have e2 := drange_step_four 4
    have e3 := drange_step_four (7/2)
    have e4 := drange_step_four 3
    have e5 := drange_step_four (3/2)
    have e6 := drange_step_four 1
    norm_num at e1 e2 e3 e4 e5 e6
    unfold get_available_units free_units consideredDevices
    norm_num [units_4_1_asc, List.erase_cons, List.contains, hd1, e1, e2, e3, e4, e5, e6,
      List.filter]
  exact ⟨available_block_subset_free, hconc, by rw [hconc]; norm_num⟩

/-- Witness for C1: position 3 is returned for the example rack, so (by the
theorem) the half-step 4 of its block [3, 5) lies in the free set. -/
theorem claim_C1_available_contiguous_witness :
    (4 : ℚ) ∈ free_units ⟨4, 1, false⟩ [⟨1, some 2, 1, some Face.front, false, false⟩]
      none none false := by
  have h3 : (3 : ℚ) ∈ get_available_units ⟨4, 1, false⟩
      [⟨1, some 2, 1, some Face.front, false, false⟩] 2 none none false := by
    rw [claim_C1_available_contiguous.2.1]
    norm_num
  have h4 : (4 : ℚ) ∈ drange 3 (3 + 2) (1/2) := by
    rw [drange_step_four]
    norm_num
  exact claim_C1_available_contiguous.1 _ _ 2 none none false 3 h3 4 h4

-- ## C10: each reserved unit removes a full 1U (two half-steps)

/-- C10: in `get_utilization`, one reserved (whole) unit `ru` removes both
half-steps `ru` and `ru + 0.5` from the available list when present; an empty
4U rack with a single reservation of unit 2 is 25% utilized. -/
theorem claim_C10_reserved_unit_full_u :
    (∀ (avail : List ℚ) (ru : ℚ),
        reserved_removal avail ru =
          (if ru + 1/2 ∈ (if ru ∈ avail then avail.erase ru else avail) then
            (if ru ∈ avail then avail.erase ru else avail).erase (ru + 1/2)
          else (if ru ∈ avail then avail.erase ru else avail))) ∧
      get_utilization ⟨4, 1, false⟩ [] [⟨1, [2]⟩] = 25 := by
  constructor
  · intro avail ru
    unfold reserved_removal
    rw [drange_step_two]
    simp only [List.foldl_cons, List.foldl_nil]
  · have hd1 := drange_step_two 2
    norm_num at hd1
    have s1 := drange_step_one 1
    have s2 := drange_step_one (3/2)
    have s3 := drange_step_one 2
    have s4 := drange_step_one (5/2)
    have s5 := drange_step_one 3
    have s6 := drange_step_one (7/2)
    have s7 := drange_step_one 4
    have s8 := drange_step_one (9/2)
    norm_num at s1 s2 s3 s4 s5 s6 s7 s8
    unfold get_utilization utilization_available get_reserved_units reserved_removal
      get_available_units free_units consideredDevices dictInsert
    norm_num [units_4_1_asc, List.erase_cons, List.contains, List.filter,
      hd1, s1, s2, s3, s4, s5, s6, s7, s8]

-- ## Helpers for utilization boundary values

theorem units_length (r : RackConfig) : r.units.length = 2 * r.u_height := by
  obtain ⟨h, s, desc⟩ := r
  cases desc
  · rw [units_asc]
    simp
  · rw [units_desc]
    simp

theorem foldl_erase_of_perm {α : Type} [DecidableEq α] :
    ∀ (xs l : List α), l.Perm xs → List.foldl List.erase l xs = [] := by
  intro xs
  induction xs with
  | nil =>
    intro l hl
    rw [List.foldl_nil]
    exact hl.eq_nil
  | cons x xs ih =>
    intro l hl
    obtain ⟨hx, hperm⟩ := List.cons_perm_iff_perm_erase.mp hl.symm
    rw [List.foldl_cons]
    exact ih (l.erase x) hperm.symm

theorem get_available_units_no_devices (rack : RackConfig) :
    get_available_units rack [] (1/2) none none true = rack.units.reverse := by
  unfold get_available_units free_units consideredDevices
  simp only [List.filter_nil, List.foldl_nil]
  congr 1
  apply List.filter_eq_self.mpr
  intro u hu
  rw [drange_step_one]
  simpa using hu

theorem units_perm_drange (h s : ℕ) (desc : Bool) :
    (RackConfig.units ⟨h, s, desc⟩).Perm (drange (s : ℚ) ((s : ℚ) + (h : ℚ)) (1/2)) := by
  have hd : drange (s : ℚ) ((s : ℚ) + (h : ℚ)) (1/2) =
      (List.range (2 * h)).map (fun i : ℕ => (s : ℚ) + (i : ℚ) * (1/2)) :=
    drange_eq_of_count _ _ _ (2 * h) (by norm_num) (by push_cast; ring)
  rw [hd, ← units_desc]
  cases desc
  · rw [units_true_eq_reverse]
    exact (List.reverse_perm _).symm
  · exact List.Perm.refl _

-- ## C3

/-- C3: `get_utilization` is `(totalUnits - |available|) / totalUnits * 100`
where `available` is `get_available_units(u_height=0.5,
ignore_excluded_devices=True)` minus reserved units; an empty rack with no
reservations is exactly 0% utilized, and a rack whose every unit is occupied
(one device spanning the whole rack) is exactly 100% utilized. -/
theorem claim_C3_utilization_boundaries :
    (∀ (rack : RackConfig) (devices : List MountedDevice)
        (reservations : List RackReservationRec),
        get_utilization rack devices reservations =
          ((rack.units.length : ℚ) -
              ((utilization_available rack devices reservations).length : ℚ)) /
            (rack.units.length : ℚ) * 100) ∧
      (∀ (h s : ℕ) (desc : Bool), get_utilization ⟨h, s, desc⟩ [] [] = 0) ∧
      (∀ (h s : ℕ) (desc : Bool) (idn : ℕ) (f : Option Face), 1 ≤ h → 1 ≤ s →
        get_utilization ⟨h, s, desc⟩ [⟨idn, some s, (h : ℚ), f, false, false⟩] [] = 100) := by
  refine ⟨?_, ?_, ?_⟩
  · intro rack devices reservations
    unfold get_utilization
    push_cast
    ring
  · intro h s desc
    have havail : utilization_available ⟨h, s, desc⟩ [] [] =
        (RackConfig.units ⟨h, s, desc⟩).reverse := by
      unfold utilization_available get_reserved_units
      simp only [List.foldl_nil]
      exact get_available_units_no_devices _
    unfold get_utilization
    rw [havail]
    simp
  · intro h s desc idn f hh hs
    have h1 : (1 : ℚ) ≤ (s : ℚ) := by exact_mod_cast hs
    have hfree : free_units ⟨h, s, desc⟩ [⟨idn, some s, (h : ℚ), f, false, false⟩]
        none none true = [] := by
      unfold free_units consideredDevices
      simp [h1]
      have hp := units_perm_drange h s desc
      rw [one_div] at hp
      exact foldl_erase_of_perm _ _ hp
    have havail : utilization_available ⟨h, s, desc⟩
        [⟨idn, some s, (h : ℚ), f, false, false⟩] [] = [] := by
      unfold utilization_available get_reserved_units
      simp only [List.foldl_nil]
      unfold get_available_units
      rw [hfree]
      simp
    unfold get_utilization
    rw [havail, units_length]
    have hne : ((2 * h : ℕ) : ℚ) ≠ 0 := by
      have : 0 < 2 * h := by omega
      exact_mod_cast this.ne.symm
    simp only [List.length_nil]
    push_cast at hne ⊢
    field_simp

/-- Witness for C3: a 1U rack fully occupied by a 1U device is 100% utilized. -/
theorem claim_C3_utilization_boundaries_witness :
    get_utilization ⟨1, 1, false⟩
      [⟨1, some ((1 : ℕ) : ℚ), ((1 : ℕ) : ℚ), some Face.front, false, false⟩] [] = 100 :=
  claim_C3_utilization_boundaries.2.2 1 1 false 1 (some Face.front) (by norm_num) (by norm_num)

-- ## Helpers: erase folds and membership in the free set

theorem foldl_preserve {α : Type} {β : Type} (P : α → Prop) (f : α → β → α)
    (hstep : ∀ a b, P a → P (f a b)) :
    ∀ (l : List β) (a : α), P a → P (List.foldl f a l) := by
  intro l
  induction l with
  | nil => intro a ha; exact ha
  | cons x xs ih =>
    intro a ha
    rw [List.foldl_cons]
    exact ih (f a x) (hstep a x ha)

theorem foldl_erase_not_mem {α : Type} [DecidableEq α] (u : α) :
    ∀ (xs l : List α), u ∉ l → u ∉ List.foldl List.erase l xs := by
  intro xs
  induction xs with
  | nil => intro l hl; simpa using hl
  | cons x xs ih =>
    intro l hl
    rw [List.foldl_cons]
    exact ih (l.erase x) (fun hmem => hl (List.mem_of_mem_erase hmem))

theorem foldl_erase_nodup {α : Type} [DecidableEq α] :
    ∀ (xs l : List α), l.Nodup → (List.foldl List.erase l xs).Nodup := by
  intro xs
  induction xs with
  | nil => intro l hl; simpa using hl
  | cons x xs ih =>
    intro l hl
    rw [List.foldl_cons]
    exact ih (l.erase x) (hl.erase x)

theorem foldl_erase_mem_removes {α : Type} [DecidableEq α] (u : α) :
    ∀ (xs l : List α), l.Nodup → u ∈ xs → u ∉ List.foldl List.erase l xs := by
  intro xs
  induction xs with
  | nil => intro l _ hu; simp at hu
  | cons x xs ih =>
    intro l hnd hu
    rw [List.foldl_cons]
    rcases List.mem_cons.mp hu with rfl | hu
    · apply foldl_erase_not_mem
      intro hmem
      exact ((hnd.mem_erase_iff).mp hmem).1 rfl
    · exact ih (l.erase x) (hnd.erase x) hu

theorem mem_free_of_mem_available (rack : RackConfig) (devices : List MountedDevice)
    (u_height : ℚ) (rack_face : Option Face) (exclude : Option (List ℕ)) (ig : Bool)
    (u : ℚ) (hu : u ∈ get_available_units rack devices u_height rack_face exclude ig) :
    u ∈ free_units rack devices rack_face exclude ig := by
  unfold get_available_units at hu
  rw [List.mem_reverse, List.mem_filter] at hu
  exact hu.1

/-- A device of the considered queryset whose face condition holds removes
every half-step it covers from the free set, and nothing re-adds it. -/
theorem free_units_not_mem (rack : RackConfig) (devices : List MountedDevice)
    (rack_face : Option Face) (exclude : Option (List ℕ)) (ig : Bool)
    (d : MountedDevice) (u : ℚ)
    (hd : d ∈ consideredDevices devices exclude ig)
    (hcond : rack_face = none ∨ d.face = rack_face ∨ d.is_full_depth)
    (hu : u ∈ drange (d.position.getD 0) (d.position.getD 0 + d.u_height) (1/2)) :
    u ∉ free_units rack devices rack_face exclude ig := by
  unfold free_units
  obtain ⟨l1, l2, hsplit⟩ := List.append_of_mem hd
  rw [hsplit, List.foldl_append, List.foldl_cons]
  set step := fun (units : List ℚ) (d : MountedDevice) =>
    if rack_face = none ∨ d.face = rack_face ∨ d.is_full_depth = true then
      (drange (d.position.getD 0) (d.position.getD 0 + d.u_height) (1/2)).foldl
        List.erase units
    else units with hstep
  have hnotmem_step : ∀ (a : List ℚ) (b : MountedDevice), u ∉ a → u ∉ step a b := by
    intro a b ha
    rw [hstep]
    dsimp only
    split
    · exact foldl_erase_not_mem u _ a ha
    · exact ha
  have hnodup_mid : (List.foldl step rack.units l1).Nodup := by
    refine foldl_preserve List.Nodup step ?_ l1 rack.units (units_nodup rack)
    intro a b ha
    rw [hstep]
    dsimp only
    split
    · exact foldl_erase_nodup _ a ha
    · exact ha
  have hafter : u ∉ step (List.foldl step rack.units l1) d := by
    rw [hstep]
    dsimp only
    rw [if_pos (by simpa using hcond)]
    exact foldl_erase_mem_removes u _ _ hnodup_mid hu
  exact foldl_preserve (fun l => u ∉ l) step hnotmem_step l2 _ hafter

-- ## C4: the exclude-from-utilization flag (corrected)

theorem consideredDevices_filter_flagged (devices : List MountedDevice) :
    consideredDevices devices none true =
      consideredDevices (devices.filter (fun d => !d.exclude_from_utilization)) none true := by
  unfold consideredDevices
  simp only [List.filter_filter]
  apply List.filter_congr
  intro d _
  cases hflag : d.exclude_from_utilization <;> simp [hflag]

theorem units_1_1_asc : RackConfig.units ⟨1, 1, false⟩ = [3/2, 1] := by
  rw [units_asc]
  norm_num [List.range_succ]

/-- Counterexample to C4: a 1U rack holding only a 1U device flagged
exclude-from-utilization is 0% utilized (the flag removes the device from the
utilization metric), while the same device leaves no position available for
placement (`get_available_units` with its default
`ignore_excluded_devices=False`) — exactly opposite to the claim. -/
theorem claim_C4_counterexample :
    get_utilization ⟨1, 1, false⟩ [⟨1, some 1, 1, some Face.front, false, true⟩] [] = 0 ∧
      get_available_units ⟨1, 1, false⟩ [⟨1, some 1, 1, some Face.front, false, true⟩]
        1 none none false = [] := by
  have s1 := drange_step_one 1
  have s2 := drange_step_one (3/2)
  have t1 := drange_step_two 1
  norm_num at s1 s2 t1
  constructor
  · unfold get_utilization utilization_available get_reserved_units
      get_available_units free_units consideredDevices
    norm_num [units_1_1_asc, List.erase_cons, List.contains, List.filter, s1, s2]
  · unfold get_available_units free_units consideredDevices
    norm_num [units_1_1_asc, List.erase_cons, List.contains, List.filter, s1, s2, t1]

/-- C4 amended: a device flagged exclude-from-utilization does NOT consume
space in `get_utilization` (the metric is unchanged by dropping every flagged
device), while it DOES block placement availability, whose default call keeps
flagged devices (`ignore_excluded_devices=False`). -/
theorem claim_C4_exclude_flag_asymmetry :
    (∀ (rack : RackConfig) (devices : List MountedDevice)
        (reservations : List RackReservationRec),
        get_utilization rack devices reservations =
          get_utilization rack (devices.filter (fun d => !d.exclude_from_utilization))
            reservations) ∧
      (∀ (rack : RackConfig) (devices : List MountedDevice) (d : MountedDevice)
          (p uh u : ℚ),
          d ∈ devices → d.exclude_from_utilization = true → d.position = some p →
          1 ≤ p → u ∈ drange p (p + d.u_height) (1/2) →
          u ∉ get_available_units rack devices uh none none false) := by
  constructor
  · intro rack devices reservations
    unfold get_utilization utilization_available get_available_units free_units
    rw [consideredDevices_filter_flagged]
  · intro rack devices d p uh u hmem _hflag hpos hple hu habs
    have hd : d ∈ consideredDevices devices none false := by
      unfold consideredDevices
      simp only [Bool.false_eq_true, if_neg, ite_false]
      refine List.mem_filter.mpr ⟨hmem, ?_⟩
      rw [hpos]
      simpa using hple
    have hfree := mem_free_of_mem_available rack devices uh none none false u habs
    refine free_units_not_mem rack devices none none false d u hd (Or.inl rfl) ?_ hfree
    rw [hpos]
    simpa using hu

/-- Witness for C4's amended blocking part: the flagged 1U device at position 1
keeps position 1 out of the default availability of the 1U rack. -/
theorem claim_C4_exclude_flag_asymmetry_witness :
    (1 : ℚ) ∉ get_available_units ⟨1, 1, false⟩
      [⟨1, some 1, 1, some Face.front, false, true⟩] 1 none none false := by
  refine claim_C4_exclude_flag_asymmetry.2 ⟨1, 1, false⟩ _
    ⟨1, some 1, 1, some Face.front, false, true⟩ 1 1 1 (by norm_num) rfl rfl
    (by norm_num) ?_
  rw [drange_step_two]
  norm_num

-- ## C5: reservation validation (corrected: InvalidUnits takes precedence)

theorem mem_reserved_foldl (u : ℕ) :
    ∀ (l : List RackReservationRec) (init : List ℕ),
      (u ∈ l.foldl (fun acc resv => acc ++ resv.units) init ↔
        u ∈ init ∨ ∃ resv ∈ l, u ∈ resv.units) := by
  intro l
  induction l with
  | nil => intro init; simp
  | cons r rs ih =>
    intro init
    rw [List.foldl_cons, ih]
    simp [List.mem_append, or_assoc]

/-- Counterexample to C5: on a 4U rack, a reservation of unit 10 whose unit is
also held by a different reservation (pk 1 ≠ 2) fails with `InvalidUnits`, not
`ConflictingReservation`, although the conflict condition holds — the two
"exactly when" clauses of the claim cannot both be iffs. -/
theorem claim_C5_counterexample :
    RackReservation.clean ⟨4, 1, false⟩ [⟨1, [10]⟩] 2 [10] =
        .error (.InvalidUnits [10]) ∧
      (10 : ℕ) ∈ (([⟨1, [10]⟩] : List RackReservationRec).filter
          (fun resv => resv.pk != 2)).foldl (fun acc resv => acc ++ resv.units) [] := by
  constructor
  · unfold RackReservation.clean
    norm_num [units_4_1_asc, List.contains, List.filter]
  · simp [List.filter]

/-- C5 amended: `clean` fails with `InvalidUnits` exactly when some requested
unit is outside the rack's unit sequence; it fails with
`ConflictingReservation` exactly when every requested unit is valid AND some
requested unit belongs to a different reservation (the invalid-units check
runs first, and the reservation under validation is excluded by its pk); it
succeeds exactly when units are valid and conflict-free. -/
theorem claim_C5_validation_errors (rack : RackConfig)
    (reservations : List RackReservationRec) (pk : ℕ) (units : List ℕ) :
    ((∃ e, RackReservation.clean rack reservations pk units = .error (.InvalidUnits e)) ↔
        ∃ u ∈ units, (u : ℚ) ∉ rack.units) ∧
      ((∃ e, RackReservation.clean rack reservations pk units =
          .error (.ConflictingReservation e)) ↔
        (∀ u ∈ units, (u : ℚ) ∈ rack.units) ∧
          ∃ u ∈ units, ∃ resv ∈ reservations, resv.pk ≠ pk ∧ u ∈ resv.units) ∧
      (RackReservation.clean rack reservations pk units = .ok () ↔
        (∀ u ∈ units, (u : ℚ) ∈ rack.units) ∧
          ∀ u ∈ units, ∀ resv ∈ reservations, resv.pk ≠ pk → u ∉ resv.units) := by
  unfold RackReservation.clean
  by_cases h0 : units = []
  · simp [h0]
  · rw [if_neg h0]
    by_cases h1 : units.filter (fun u : ℕ => !(rack.units.contains (u : ℚ))) = []
    · rw [if_neg (not_not_intro h1)]
      have hvalid : ∀ u ∈ units, (u : ℚ) ∈ rack.units := by
        intro u hu
        have := List.filter_eq_nil_iff.mp h1 u hu
        simpa using this
      by_cases h2 : units.filter (fun u : ℕ =>
          ((reservations.filter (fun resv => resv.pk != pk)).foldl
            (fun acc resv => acc ++ resv.units) []).contains u) = []
      · rw [if_neg (not_not_intro h2)]
        have hnoconf : ∀ u ∈ units, ∀ resv ∈ reservations, resv.pk ≠ pk → u ∉ resv.units := by
          intro u hu resv hresv hne habs
          have hni := List.filter_eq_nil_iff.mp h2 u hu
          apply hni
          simp only [List.contains, List.elem_iff, mem_reserved_foldl]
          exact Or.inr ⟨resv, List.mem_filter.mpr ⟨hresv, by simpa using hne⟩, habs⟩
        refine ⟨⟨?_, ?_⟩, ⟨?_, ?_⟩, ⟨?_, ?_⟩⟩
        · rintro ⟨e, he⟩
          simp at he
        · rintro ⟨u, hu, hnot⟩
          exact absurd (hvalid u hu) hnot
        · rintro ⟨e, he⟩
          simp at he
        · rintro ⟨-, u, hu, resv, hresv, hne, humem⟩
          exact absurd humem (hnoconf u hu resv hresv hne)
        · intro _
          exact ⟨hvalid, hnoconf⟩
        · intro _
          rfl
      · rw [if_pos h2]
        obtain ⟨u0, hu0f⟩ := List.exists_mem_of_ne_nil _ h2
        obtain ⟨hu0, hu0p⟩ := List.mem_filter.mp hu0f
        have hconf : ∃ u ∈ units, ∃ resv ∈ reservations, resv.pk ≠ pk ∧ u ∈ resv.units := by
          refine ⟨u0, hu0, ?_⟩
          simp only [List.contains, List.elem_iff, mem_reserved_foldl] at hu0p
          rcases hu0p with h | ⟨resv, hrf, hmem⟩
          · simp at h
          · obtain ⟨hr1, hr2⟩ := List.mem_filter.mp hrf
            exact ⟨resv, hr1, by simpa using hr2, hmem⟩
        refine ⟨⟨?_, ?_⟩, ⟨?_, ?_⟩, ⟨?_, ?_⟩⟩
        · rintro ⟨e, he⟩
          simp at he
        · rintro ⟨u, hu, hnot⟩
          exact absurd (hvalid u hu) hnot
        · intro _
          exact ⟨hvalid, hconf⟩
        · intro _
          exact ⟨_, rfl⟩
        · intro h
          simp at h
        · rintro ⟨-, hnoconf⟩
          obtain ⟨u, hu, resv, hresv, hne, humem⟩ := hconf
          exact absurd humem (hnoconf u hu resv hresv hne)
    · rw [if_pos h1]
      obtain ⟨u0, hu0f⟩ := List.exists_mem_of_ne_nil _ h1
      obtain ⟨hu0, hu0p⟩ := List.mem_filter.mp hu0f
      have hinv : ∃ u ∈ units, (u : ℚ) ∉ rack.units := ⟨u0, hu0, by simpa using hu0p⟩
      refine ⟨⟨?_, ?_⟩, ⟨?_, ?_⟩, ⟨?_, ?_⟩⟩
      · intro _
        exact hinv
      · intro _
        exact ⟨_, rfl⟩
      · rintro ⟨e, he⟩
        simp at he
      · rintro ⟨hval, -⟩
        obtain ⟨u, hu, hnot⟩ := hinv
        exact absurd (hval u hu) hnot
      · intro h
        simp at h
      · rintro ⟨hval, -⟩
        obtain ⟨u, hu, hnot⟩ := hinv
        exact absurd (hval u hu) hnot

-- ## C6: rack height validation (corrected: only the topmost-positioned device is checked)

/-- Counterexample to C6: with overlapping device data — device 1 at position 1
spanning 3U (top at 4, outside the 2U rack) and device 2 at position 2 with 1U
— `Rack.clean` passes, because only the device with the highest *position*
(device 2, which fits) is checked; shrinking the rack from 4U to 2U is then
persisted. -/
theorem claim_C6_counterexample :
    Rack.clean_mounted ⟨2, 1, false⟩ false
        [⟨1, some 1, 3, some Face.front, false, false⟩,
         ⟨2, some 2, 1, some Face.front, false, false⟩] = .ok () ∧
      Rack.validated_save ⟨4, 1, false⟩ ⟨2, 1, false⟩
        [⟨1, some 1, 3, some Face.front, false, false⟩,
         ⟨2, some 2, 1, some Face.front, false, false⟩] = ⟨2, 1, false⟩ := by
  have hclean : Rack.clean_mounted ⟨2, 1, false⟩ false
      [⟨1, some 1, 3, some Face.front, false, false⟩,
       ⟨2, some 2, 1, some Face.front, false, false⟩] = .ok () := by
    unfold Rack.clean_mounted
    norm_num [orderByPosition, insertByPosition, List.filter]
  exact ⟨hclean, by unfold Rack.validated_save; rw [hclean]⟩

/-- C6 amended: whenever the topmost-*positioned* mounted device (the last of
the position-ordered mounted devices, the one `Rack.clean` checks) would stick
out of the proposed height/starting-unit, validation fails with
`HeightTooSmall` and the proposed configuration is not persisted.  With
non-overlapping devices this device also has the highest top, so the original
claim then follows; with overlapping (already-corrupt) data only the
topmost-positioned device is checked. -/
theorem claim_C6_height_too_small (cfg stored : RackConfig)
    (devices : List MountedDevice) (d : MountedDevice)
    (hlast : (orderByPosition (devices.filter (fun x => x.position.isSome))).getLast?
      = some d)
    (hover : (cfg.u_height : ℚ) < d.position.getD 0 + d.u_height - cfg.starting_unit) :
    Rack.clean_mounted cfg false devices =
        .error (.HeightTooSmall (d.position.getD 0 + d.u_height - cfg.starting_unit)) ∧
      Rack.validated_save stored cfg devices = stored := by
  have hclean : Rack.clean_mounted cfg false devices =
      .error (.HeightTooSmall (d.position.getD 0 + d.u_height - cfg.starting_unit)) := by
    unfold Rack.clean_mounted
    simp only [Bool.false_eq_true, if_neg, ite_false, hlast]
    rw [if_pos hover]
  exact ⟨hclean, by unfold Rack.validated_save; rw [hclean]⟩

/-- Witness for C6: shrinking a rack to 1U below a 1U device mounted at
position 2 fails with `HeightTooSmall` (min height 2) and the stored 3U
configuration survives. -/
theorem claim_C6_height_too_small_witness :
    Rack.clean_mounted ⟨1, 1, false⟩ false
        [⟨1, some 2, 1, some Face.front, false, false⟩] =
        .error (.HeightTooSmall 2) ∧
      Rack.validated_save ⟨3, 1, false⟩ ⟨1, 1, false⟩
        [⟨1, some 2, 1, some Face.front, false, false⟩] = ⟨3, 1, false⟩ := by
  have h := claim_C6_height_too_small ⟨1, 1, false⟩ ⟨3, 1, false⟩
    [⟨1, some 2, 1, some Face.front, false, false⟩]
    ⟨1, some 2, 1, some Face.front, false, false⟩
    (by norm_num [orderByPosition, insertByPosition, List.filter]) (by norm_num)
  norm_num at h
  exact h

-- ## C7: RackType attribute propagation

theorem clearOuterUnit_idem (a : RackPhysicalAttrs) :
    clearOuterUnit (clearOuterUnit a) = clearOuterUnit a := by
  unfold clearOuterUnit
  by_cases h : a.outer_width = none ∧ a.outer_depth = none <;> simp [h]

theorem clearOuterUnit_numbering (a : RackPhysicalAttrs) :
    (clearOuterUnit a).u_height = a.u_height ∧
      (clearOuterUnit a).starting_unit = a.starting_unit ∧
      (clearOuterUnit a).desc_units = a.desc_units := by
  unfold clearOuterUnit
  by_cases h : a.outer_width = none ∧ a.outer_depth = none <;> simp [h]

/-- C7: saving a `RackType` rewrites every referencing rack's physical
attributes to the (saved) rack type's — in particular its numbering
configuration, hence its `units` output; and saving a rack whose `rack_type`
is assigned (to a save-normalized rack type row) leaves its attributes equal
to the rack type's. -/
theorem claim_C7_racktype_cascade :
    (∀ (rt : RackTypeRec) (racks : List RackRec), ∀ r ∈ (RackType.save rt racks).2,
        r.attrs = (RackType.save rt racks).1.attrs ∧
          RackRec.config r =
            ⟨rt.attrs.u_height, rt.attrs.starting_unit, rt.attrs.desc_units⟩ ∧
          (RackRec.config r).units =
            RackConfig.units
              ⟨rt.attrs.u_height, rt.attrs.starting_unit, rt.attrs.desc_units⟩) ∧
      (∀ (r : RackRec) (rt0 : RackTypeRec), r.rack_type = some rt0 →
        (rt0.attrs.outer_width = none ∧ rt0.attrs.outer_depth = none →
          rt0.attrs.outer_unit = "") →
        (Rack.save r).attrs = rt0.attrs) := by
  constructor
  · intro rt racks r hr
    unfold RackType.save at hr ⊢
    simp only at hr ⊢
    obtain ⟨r0, _, rfl⟩ := List.mem_map.mp hr
    unfold Rack.save Rack.copy_racktype_attrs
    simp only
    have hattrs : (clearOuterUnit (clearOuterUnit rt.attrs)) = clearOuterUnit rt.attrs :=
      clearOuterUnit_idem rt.attrs
    refine ⟨by simpa using hattrs, ?_, ?_⟩
    · unfold RackRec.config
      simp only [hattrs]
      obtain ⟨h1, h2, h3⟩ := clearOuterUnit_numbering rt.attrs
      rw [h1, h2, h3]
    · unfold RackRec.config
      simp only [hattrs]
      obtain ⟨h1, h2, h3⟩ := clearOuterUnit_numbering rt.attrs
      rw [h1, h2, h3]
  · intro r rt0 hrt hclear
    unfold Rack.save Rack.copy_racktype_attrs
    rw [hrt]
    simp only
    unfold clearOuterUnit
    by_cases h : rt0.attrs.outer_width = none ∧ rt0.attrs.outer_depth = none
    · rw [if_pos h]
      have hou := hclear h
      rw [← hou]
    · rw [if_neg h]

/-- Witness for C7: a rack with different numbering assigned to a 2U rack type
receives the rack type's attributes on `Rack.save`, and the rack produced by
the rack type's own cascading save presents the 2U/start-1/ascending
configuration. -/
theorem claim_C7_racktype_cascade_witness :
    (Rack.save (⟨⟨"x", 23, 5, 3, true, none, none, "", none, none, "", none⟩,
        some ⟨⟨"", 19, 2, 1, false, none, none, "", none, none, "", none⟩, none⟩,
        none⟩ : RackRec)).attrs =
        ⟨"", 19, 2, 1, false, none, none, "", none, none, "", none⟩ ∧
      RackRec.config
        (⟨⟨"", 19, 2, 1, false, none, none, "", none, none, "", none⟩,
          some ⟨⟨"", 19, 2, 1, false, none, none, "", none, none, "", none⟩, none⟩,
          none⟩ : RackRec) = ⟨2, 1, false⟩ := by
  constructor
  · exact claim_C7_racktype_cascade.2 _
      ⟨⟨"", 19, 2, 1, false, none, none, "", none, none, "", none⟩, none⟩ rfl
      (fun _ => rfl)
  · have hmem : (⟨⟨"", 19, 2, 1, false, none, none, "", none, none, "", none⟩,
        some ⟨⟨"", 19, 2, 1, false, none, none, "", none, none, "", none⟩, none⟩,
        none⟩ : RackRec) ∈
        (RackType.save ⟨⟨"", 19, 2, 1, false, none, none, "", none, none, "", none⟩, none⟩
          [⟨⟨"x", 23, 5, 3, true, none, none, "", none, none, "", none⟩,
            some ⟨⟨"", 19, 2, 1, false, none, none, "", none, none, "", none⟩, none⟩,
            none⟩]).2 := by
      simp [RackType.save, Rack.save, Rack.copy_racktype_attrs, absMaxWeight, clearOuterUnit]
    exact (claim_C7_racktype_cascade.1 _ _ _ hmem).2.1

-- ## C8: full-depth devices occupy both faces

theorem except_bind_ok {α β γ : Type} {x : Except γ α} {f : α → Except γ β} {out : β}
    (h : (x >>= f) = .ok out) : ∃ mid, x = .ok mid ∧ f mid = .ok out := by
  cases x with
  | error e =>
    simp only [Bind.bind, Except.bind] at h
    exact absurd h (by simp)
  | ok a =>
    refine ⟨a, rfl, ?_⟩
    simpa only [Bind.bind, Except.bind] using h

theorem updateEntryAt_ok_occ {elev : List UnitEntry} {u : ℚ} {f : UnitEntry → UnitEntry}
    {out : List UnitEntry} (hok : updateEntryAt elev u f = .ok out)
    (hf : ∀ e, (f e).id = e.id ∧ (f e).occupied = true) :
    ∃ e ∈ out, e.id = u ∧ e.occupied = true := by
  unfold updateEntryAt at hok
  split at hok
  · next hany =>
    obtain ⟨e, he, heq⟩ := List.any_eq_true.mp hany
    have heq2 : e.id = u := by simpa using heq
    injection hok with hok
    refine ⟨f e, ?_, ?_, (hf e).2⟩
    · rw [← hok]
      refine List.mem_map.mpr ⟨e, he, ?_⟩
      rw [if_pos (by simpa using heq2)]
    · rw [(hf e).1, heq2]
  · exact absurd hok (by simp)

theorem updateEntryAt_preserve_occ {elev : List UnitEntry} {u u0 : ℚ}
    {f : UnitEntry → UnitEntry} {out : List UnitEntry}
    (hok : updateEntryAt elev u f = .ok out)
    (hf : ∀ e, (f e).id = e.id ∧ (f e).occupied = true)
    (hP : ∃ e ∈ elev, e.id = u0 ∧ e.occupied = true) :
    ∃ e ∈ out, e.id = u0 ∧ e.occupied = true := by
  unfold updateEntryAt at hok
  split at hok
  · injection hok with hok
    obtain ⟨e, he, hid, hocc⟩ := hP
    rw [← hok]
    by_cases hcase : (e.id == u) = true
    · exact ⟨f e, List.mem_map.mpr ⟨e, he, by rw [if_pos hcase]⟩,
        by rw [(hf e).1, hid], (hf e).2⟩
    · exact ⟨e, List.mem_map.mpr ⟨e, he, by rw [if_neg hcase]⟩, hid, hocc⟩
  · exact absurd hok (by simp)

theorem inner_foldlM_preserve {f : UnitEntry → UnitEntry}
    (hf : ∀ e, (f e).id = e.id ∧ (f e).occupied = true) (u0 : ℚ) :
    ∀ (xs : List ℚ) (elev out : List UnitEntry),
      (xs.foldlM (fun elev u => updateEntryAt elev u f) elev = .ok out) →
      (∃ e ∈ elev, e.id = u0 ∧ e.occupied = true) →
      ∃ e ∈ out, e.id = u0 ∧ e.occupied = true := by
  intro xs
  induction xs with
  | nil =>
    intro elev out hok hP
    simp only [List.foldlM_nil] at hok
    injection hok with hok
    rwa [← hok]
  | cons x xs ih =>
    intro elev out hok hP
    rw [List.foldlM_cons] at hok
    obtain ⟨mid, hmid, hrest⟩ := except_bind_ok hok
    exact ih mid out hrest (updateEntryAt_preserve_occ hmid hf hP)

theorem inner_foldlM_sets {f : UnitEntry → UnitEntry}
    (hf : ∀ e, (f e).id = e.id ∧ (f e).occupied = true) (u0 : ℚ) :
    ∀ (xs : List ℚ) (elev out : List UnitEntry),
      (xs.foldlM (fun elev u => updateEntryAt elev u f) elev = .ok out) →
      u0 ∈ xs →
      ∃ e ∈ out, e.id = u0 ∧ e.occupied = true := by
  intro xs
  induction xs with
  | nil =>
    intro elev out _ hu
    simp at hu
  | cons x xs ih =>
    intro elev out hok hu
    rw [List.foldlM_cons] at hok
    obtain ⟨mid, hmid, hrest⟩ := except_bind_ok hok
    rcases List.mem_cons.mp hu with rfl | hu
    · exact inner_foldlM_preserve hf u0 xs mid out hrest (updateEntryAt_ok_occ hmid hf)
    · exact ih mid out hrest hu

theorem outer_foldlM_preserve (g : MountedDevice → UnitEntry → UnitEntry)
    (hg : ∀ d e, (g d e).id = e.id ∧ (g d e).occupied = true) (u0 : ℚ) :
    ∀ (ds : List MountedDevice) (elev out : List UnitEntry),
      (ds.foldlM (fun elev d =>
        (drange (d.position.getD 0) (d.position.getD 0 + d.u_height) (1/2)).foldlM
          (fun elev u => updateEntryAt elev u (g d)) elev) elev = .ok out) →
      (∃ e ∈ elev, e.id = u0 ∧ e.occupied = true) →
      ∃ e ∈ out, e.id = u0 ∧ e.occupied = true := by
  intro ds
  induction ds with
  | nil =>
    intro elev out hok hP
    simp only [List.foldlM_nil] at hok
    injection hok with hok
    rwa [← hok]
  | cons x xs ih =>
    intro elev out hok hP
    rw [List.foldlM_cons] at hok
    obtain ⟨mid, hmid, hrest⟩ := except_bind_ok hok
    exact ih mid out hrest (inner_foldlM_preserve (hg x) u0 _ elev mid hmid hP)

theorem outer_foldlM_sets (g : MountedDevice → UnitEntry → UnitEntry)
    (hg : ∀ d e, (g d e).id = e.id ∧ (g d e).occupied = true) (u0 : ℚ)
    (d : MountedDevice)
    (hu : u0 ∈ drange (d.position.getD 0) (d.position.getD 0 + d.u_height) (1/2)) :
    ∀ (ds : List MountedDevice) (elev out : List UnitEntry),
      (ds.foldlM (fun elev d =>
        (drange (d.position.getD 0) (d.position.getD 0 + d.u_height) (1/2)).foldlM
          (fun elev u => updateEntryAt elev u (g d)) elev) elev = .ok out) →
      d ∈ ds →
      ∃ e ∈ out, e.id = u0 ∧ e.occupied = true := by
  intro ds
  induction ds with
  | nil =>
    intro elev out _ hmem
    simp at hmem
  | cons x xs ih =>
    intro elev out hok hmem
    rw [List.foldlM_cons] at hok
    obtain ⟨mid, hmid, hrest⟩ := except_bind_ok hok
    rcases List.mem_cons.mp hmem with rfl | hmem
    · exact outer_foldlM_preserve g hg u0 xs mid out hrest
        (inner_foldlM_sets (hg d) u0 _ elev mid hmid hu)
    · exact ih mid out hrest hmem

/-- C8: a full-depth mounted device (`position > 0`, `u_height > 0`, not
excluded) is included in the `get_rack_units` elevation for EVERY queried face
(the filter is `face=face OR is_full_depth`), and in expanded mode every
half-step it covers is marked occupied in the returned elevation. -/
theorem claim_C8_full_depth_both_faces (rack : RackConfig)
    (devices : List MountedDevice) (user : Option (ℕ → Bool)) (exclude : Option ℕ)
    (face : Face) (d : MountedDevice) (p : ℚ)
    (hmem : d ∈ devices) (hfd : d.is_full_depth = true) (hpos : d.position = some p)
    (hp : 0 < p) (hh : 0 < d.u_height) (hex : exclude ≠ some d.id) :
    ∀ l, get_rack_units rack false devices user face exclude true = .ok l →
      ∀ u ∈ drange p (p + d.u_height) (1/2), ∃ e ∈ l, e.id = u ∧ e.occupied = true := by
  intro l hok u hu
  unfold get_rack_units at hok
  simp only [Bool.false_eq_true, if_neg, ite_false, eq_self_iff_true, if_true] at hok
  have hdevs : d ∈ devices.filter (fun d =>
      !(some d.id == exclude) &&
      (match d.position with
       | some p => decide (0 < p)
       | none => false) &&
      decide (0 < d.u_height) &&
      (d.face == some face || d.is_full_depth)) := by
    refine List.mem_filter.mpr ⟨hmem, ?_⟩
    rw [hpos]
    simp [hp, hh, hfd, beq_eq_false_iff_ne]
    exact fun hc => hex hc.symm
  have hu2 : u ∈ drange (d.position.getD 0) (d.position.getD 0 + d.u_height) (1/2) := by
    rw [hpos]
    simpa using hu
  exact outer_foldlM_sets
    (fun (dv : MountedDevice) (e : UnitEntry) =>
      { e with
          device := if devicePermitted user dv then some dv.id else e.device,
          occupied := true })
    (fun dv e => ⟨rfl, rfl⟩) u d hu2 _ _ l hok hdevs

theorem units_2_1_asc : RackConfig.units ⟨2, 1, false⟩ = [5/2, 2, 3/2, 1] := by
  rw [units_asc]
  norm_num [List.range_succ]

/-- The elevation of a 2U rack holding one full-depth 1U device at position 1
(front-mounted), for an arbitrary queried face. -/
theorem get_rack_units_full_depth_eval (face : Face) :
    get_rack_units ⟨2, 1, false⟩ false [⟨7, some 1, 1, some Face.front, true, false⟩]
      none face none true =
      .ok [⟨5/2, unit_name (5/2), face, none, false, none⟩,
           ⟨2, unit_name 2, face, none, false, none⟩,
           ⟨3/2, unit_name (3/2), face, some 7, true, none⟩,
           ⟨1, unit_name 1, face, some 7, true, none⟩] := by
  have t1 := drange_step_two 1
  norm_num at t1
  unfold get_rack_units updateEntryAt devicePermitted
  norm_num [units_2_1_asc, t1, List.filter, List.foldlM_cons, List.foldlM_nil,
    Bind.bind, Except.bind, Pure.pure, Except.pure, beq_iff_eq, List.any_cons]

/-- Witness for C8: the front-mounted full-depth device at position 1 marks
position 1 occupied in both the front and the rear elevation. -/
theorem claim_C8_full_depth_both_faces_witness :
    (∃ e ∈ [⟨5/2, unit_name (5/2), Face.front, none, false, none⟩,
            ⟨2, unit_name 2, Face.front, none, false, none⟩,
            ⟨3/2, unit_name (3/2), Face.front, some 7, true, none⟩,
            (⟨1, unit_name 1, Face.front, some 7, true, none⟩ : UnitEntry)],
        e.id = 1 ∧ e.occupied = true) ∧
      (∃ e ∈ [⟨5/2, unit_name (5/2), Face.rear, none, false, none⟩,
              ⟨2, unit_name 2, Face.rear, none, false, none⟩,
              ⟨3/2, unit_name (3/2), Face.rear, some 7, true, none⟩,
              (⟨1, unit_name 1, Face.rear, some 7, true, none⟩ : UnitEntry)],
          e.id = 1 ∧ e.occupied = true) := by
  have hu1 : (1 : ℚ) ∈ drange 1 (1 + (1 : ℚ)) (1/2) := by
    rw [drange_step_two]
    norm_num
  constructor
  · exact claim_C8_full_depth_both_faces ⟨2, 1, false⟩ _ none none Face.front
      ⟨7, some 1, 1, some Face.front, true, false⟩ 1 (by norm_num) rfl rfl
      (by norm_num) (by norm_num) (by simp) _
      (get_rack_units_full_depth_eval Face.front) 1 hu1
  · exact claim_C8_full_depth_both_faces ⟨2, 1, false⟩ _ none none Face.rear
      ⟨7, some 1, 1, some Face.front, true, false⟩ 1 (by norm_num) rfl rfl
      (by norm_num) (by norm_num) (by simp) _
      (get_rack_units_full_depth_eval Face.rear) 1 hu1
